import Mathlib

/-!
Verification of the connection-lifecycle / chat-agent core of `src/agent.py`.

The Python source is shallowly embedded below.  Strings are modelled as
`List Char`; Python's `str.lower` is modelled with `Char.toLower`
(ASCII case folding, which agrees with Python on the ASCII texts the
spec talks about).  Machine state that Python keeps in globals
(`online_players`, `running`, `connection_active`) is passed explicitly.
-/

set_option maxRecDepth 8000

namespace MCAgent

/-- Python `str.isspace` characters relevant to `str.strip()` (ASCII range). -/
def isPySpace (c : Char) : Bool :=
  c == ' ' || c == '\t' || c == '\n' || c == '\r' || c == '\x0b' || c == '\x0c'

/-- Python `str.lower()` on a character list (ASCII case folding). -/
def toLowerL (s : List Char) : List Char := s.map Char.toLower

/-- Python `str.startswith`: does `s` start with `pat`? -/
def startsWithL : List Char → List Char → Bool
  | _, [] => true
  | [], _ :: _ => false
  | c :: cs, d :: ds => c == d && startsWithL cs ds

/-- Python `pat in s` substring test. -/
def containsSub : List Char → List Char → Bool
  | [], pat => startsWithL [] pat
  | c :: rest, pat => startsWithL (c :: rest) pat || containsSub rest pat

/-- Right half of Python `str.strip()`: drop trailing whitespace. -/
def rstripSp (s : List Char) : List Char :=
  (s.reverse.dropWhile isPySpace).reverse

/-- Python `str.strip()` with no argument: drop leading and trailing whitespace. -/
def stripPy (s : List Char) : List Char :=
  rstripSp (s.dropWhile isPySpace)

/-- Python `str.lstrip(",: ")`: drop leading commas, colons and spaces. -/
def lstripSep (s : List Char) : List Char :=
  s.dropWhile (fun c => c == ',' || c == ':' || c == ' ')

/-- Result of `parse_command` (`agent.py` lines 162-171): Python returns
`("say", rest)`, `("jump", None)` or `(None, None)`. -/
inductive Cmd where
  | say (arg : List Char)
  | jump
  | none
deriving DecidableEq

/-- The literal `"say "` tested by `cmd.lower().startswith("say ")`. -/
def sayLit : List Char := ['s', 'a', 'y', ' ']

/-- The literal `"jump"` tested by `cmd.lower().startswith("jump")`. -/
def jumpLit : List Char := ['j', 'u', 'm', 'p']

/-- `parse_command` (`agent.py` lines 162-171):
```
if msg_text.lower().startswith(username.lower()):
    cmd = msg_text[len(username):].strip().lstrip(",: ")
    if cmd.lower().startswith("say "):
        return ("say", cmd[4:])
    elif cmd.lower().startswith("jump"):
        return ("jump", None)
return (None, None)
``` -/
def parse_command (username msg_text : List Char) : Cmd :=
  if startsWithL (toLowerL msg_text) (toLowerL username) then
    let cmd := lstripSep (stripPy (msg_text.drop username.length))
    if startsWithL (toLowerL cmd) sayLit then
      Cmd.say (cmd.drop 4)
    else if startsWithL (toLowerL cmd) jumpLit then
      Cmd.jump
    else
      Cmd.none
  else
    Cmd.none

/-- JSON values as produced by `json.loads` (`agent.py` line 177). -/
inductive JVal where
  | jstr (s : List Char)
  | jnum (n : Int)
  | jbool (b : Bool)
  | jnull
  | jarr (xs : List JVal)
  | jobj (fs : List (String × JVal))

/-- Python dict key lookup for the parsed JSON object. -/
def lookupKey : List (String × JVal) → String → Option JVal
  | [], _ => Option.none
  | (k, v) :: rest, key => if k = key then some v else lookupKey rest key

def keyExtra : String := "extra"
def keyText : String := "text"

/-- One step of `part.get('text', '')` inside the comprehension at line 179.
`part` must be a dict (otherwise `.get` raises `AttributeError`) and the
`text` value must be a string (otherwise `''.join` raises `TypeError`);
both exceptions are caught by the surrounding `try`. -/
def partText : JVal → Except Unit (List Char)
  | JVal.jobj fs =>
      match lookupKey fs keyText with
      | some (JVal.jstr s) => Except.ok s
      | some _ => Except.error ()
      | Option.none => Except.ok []
  | _ => Except.error ()

/-- `''.join([part.get('text', '') for part in data['extra']])` (line 179). -/
def joinParts : List JVal → Except Unit (List Char)
  | [] => Except.ok []
  | p :: rest =>
    match partText p with
    | Except.error e => Except.error e
    | Except.ok t =>
      match joinParts rest with
      | Except.error e => Except.error e
      | Except.ok ts => Except.ok (t ++ ts)

/-- Value of `msg_text` after extraction.  `data.get('text', '')` can return a
non-string JSON value, which Python carries on without raising inside the
extraction `try` block; `raw` records that case. -/
inductive TextVal where
  | str (s : List Char)
  | raw (v : JVal)

/-- An inbound chat packet as seen by `handle_chat`.
`json_data = none` models a packet whose `json_data` is absent or fails
`json.loads`; `message` models the optional `packet.message` attribute used by
the `getattr(packet, 'message', str(packet))` fallback; `str_repr` is
`str(packet)`. -/
structure Packet where
  json_data : Option JVal
  message : Option (List Char)
  str_repr : List Char

/-- Body of the `try` block at `agent.py` lines 177-181, with every Python
exception path made explicit:
* on a dict with an `extra` key: iterating a non-list `extra` either raises
  (`TypeError` on numbers, `AttributeError` from `.get` when iterating the
  characters of a string or the keys of a dict) — all `Except.error`;
* on a dict without `extra`: `data.get('text', '')`;
* on any non-dict JSON value (list, string, number, bool, null): the test
  `'extra' in data` / the subsequent subscript or `.get` raises
  (`TypeError` / `AttributeError`) — `Except.error`. -/
def extract_try (d : JVal) : Except Unit TextVal :=
  match d with
  | JVal.jobj fs =>
    match lookupKey fs keyExtra with
    | some (JVal.jarr parts) =>
      match joinParts parts with
      | Except.ok t => Except.ok (TextVal.str t)
      | Except.error e => Except.error e
    | some _ => Except.error ()
    | Option.none =>
      match lookupKey fs keyText with
      | some (JVal.jstr s) => Except.ok (TextVal.str s)
      | some v => Except.ok (TextVal.raw v)
      | Option.none => Except.ok (TextVal.str [])
  | _ => Except.error ()

/-- Text extraction of `handle_chat` (`agent.py` lines 175-183): the `try`
around `json.loads` plus structured extraction, with the `except` falling back
to `getattr(packet, 'message', str(packet))`. -/
def extract_text (p : Packet) : TextVal :=
  match p.json_data with
  | some d =>
    match extract_try d with
    | Except.ok t => t
    | Except.error _ => TextVal.str (p.message.getD p.str_repr)
  | Option.none => TextVal.str (p.message.getD p.str_repr)

/-- A structured chat segment `{"text": t}`. -/
def mkSeg (t : List Char) : JVal := JVal.jobj [(keyText, JVal.jstr t)]

/-- Concatenation of segment texts in document order. -/
def concatTexts : List (List Char) → List Char
  | [] => []
  | t :: rest => t ++ concatTexts rest

/-- Outcome of the `openai.ChatCompletion.create` call (lines 196-200):
either the reply content, or any raised exception / timeout. -/
inductive CompResult where
  | ok (content : List Char)
  | err
deriving DecidableEq

/-- Observable effects of one `handle_chat` invocation: the chat messages
passed to `send_chat` in order, whether the OpenAI call was reached, and
whether the `[OpenAI Error]` log line was written. -/
structure HandleRes where
  sent : List (List Char)
  openaiInvoked : Bool
  openaiErrLogged : Bool
deriving DecidableEq

/-- `"[Agent Error] Could not process your request."` (line 206). -/
def fallbackNotice : List Char :=
  "[Agent Error] Could not process your request.".toList

/-- `"*jumps*"` (line 191). -/
def jumpsMsg : List Char := "*jumps*".toList

/-- `'agentbot'` (line 192), already lowercase in the source. -/
def agentbotAlias : List Char := "agentbot".toList

/-- Command dispatch of `handle_chat` (`agent.py` lines 187-206) on the
extracted text.  `send_chat` (lines 155-159) forwards its argument to the
wire unchanged, so the `sent` list records exactly the transmitted texts.
Note that only the OpenAI branch truncates (`send_chat(reply[:256])`,
line 203); the `say` branch sends `arg` verbatim (line 189). -/
def handle_chatCore (username msg_text : List Char) (comp : CompResult) : HandleRes :=
  match parse_command username msg_text with
  | Cmd.say arg => ⟨[arg], false, false⟩
  | Cmd.jump => ⟨[jumpsMsg], false, false⟩
  | Cmd.none =>
    if containsSub (toLowerL msg_text) (toLowerL username)
        || containsSub (toLowerL msg_text) agentbotAlias then
      match comp with
      | CompResult.ok content => ⟨[(stripPy content).take 256], true, false⟩
      | CompResult.err => ⟨[fallbackNotice], true, true⟩
    else ⟨[], false, false⟩

/-- Whole `handle_chat` (lines 174-206).  When extraction produces a
non-string (`TextVal.raw`), the later `msg_text.lower()` in `parse_command`
raises `AttributeError`, which nothing in `handle_chat` catches — this is the
only way the handler can propagate an exception, and it happens before the
completion call. -/
def handle_chat (username : List Char) (p : Packet) (comp : CompResult) :
    Except Unit HandleRes :=
  match extract_text p with
  | TextVal.str t => Except.ok (handle_chatCore username t comp)
  | TextVal.raw _ => Except.error ()

/-- Outcome of `connection.write_packet(response)` at line 231: normal return
or a raised exception. -/
inductive SendOutcome where
  | sok
  | sfail
deriving DecidableEq

/-- Observable effects of one `handle_keepalive` invocation (lines 223-233):
the `keep_alive_id` placed on the response packet handed to `write_packet`
(if any), whether the write returned normally, whether the
`Error responding to keepalive` log line was written, and the session state
(of arbitrary type `σ`, which the handler never touches). -/
structure KAResult (σ : Type) where
  ackNonce : Option Int
  delivered : Bool
  errLogged : Bool
  state : σ

/-- `handle_keepalive` (`agent.py` lines 223-233).  `keep_alive_id = none`
models `hasattr(packet, 'keep_alive_id')` being false.  The whole body sits
in a `try`, so a raising `write_packet` only produces a log line. -/
def handle_keepalive {σ : Type} (st : σ) (keep_alive_id : Option Int)
    (wr : SendOutcome) : KAResult σ :=
  match keep_alive_id with
  | some n =>
    match wr with
    | SendOutcome.sok => ⟨some n, true, false, st⟩
    | SendOutcome.sfail => ⟨some n, false, true, st⟩
  | Option.none => ⟨Option.none, false, false, st⟩

/-- `action.name` values handled by `handle_player_info` (lines 111-120);
`otherAction` is any other name (the `if/elif` falls through). -/
inductive PAction where
  | addPlayer
  | removePlayer
  | otherAction
deriving DecidableEq

/-- A player-info packet.  `none` entries model a malformed action
(`action.name` raises) or a malformed info (`info.name` raises); the raised
exception is caught by the handler's `try`/`except`. -/
structure PIPacket where
  actions : List (Option PAction)
  player_infos : List (Option String)

/-- The global `online_players` Python set, modelled as a duplicate-free list
(iteration order is irrelevant: every read of the set goes through `sorted`
or membership).  `set.add` is idempotent. -/
def pyAdd (s : List String) (n : String) : List String :=
  if n ∈ s then s else s ++ [n]

/-- The inner `for info in packet.player_infos: online_players.add(info.name)`
loop of the `ADD_PLAYER` branch (lines 113-115).  An exception aborts the loop
but the insertions already performed on the global set remain: the `error`
value carries the state at the raise. -/
def addInfos : List String → List (Option String) →
    Except (List String) (List String)
  | s, [] => Except.ok s
  | s, Option.none :: _ => Except.error s
  | s, some n :: rest => addInfos (pyAdd s n) rest

/-- The inner loop of the `REMOVE_PLAYER` branch (lines 117-120), with its
explicit `if info.name in online_players` membership guard. -/
def removeInfos : List String → List (Option String) →
    Except (List String) (List String)
  | s, [] => Except.ok s
  | s, Option.none :: _ => Except.error s
  | s, some n :: rest => removeInfos (if n ∈ s then s.erase n else s) rest

/-- The `for action in packet.actions` loop (lines 111-120). -/
def procActions : List String → List (Option PAction) → List (Option String) →
    Except (List String) (List String)
  | s, [], _ => Except.ok s
  | s, Option.none :: _, _ => Except.error s
  | s, some PAction.addPlayer :: rest, infos =>
    match addInfos s infos with
    | Except.ok s2 => procActions s2 rest infos
    | Except.error s2 => Except.error s2
  | s, some PAction.removePlayer :: rest, infos =>
    match removeInfos s infos with
    | Except.ok s2 => procActions s2 rest infos
    | Except.error s2 => Except.error s2
  | s, some PAction.otherAction :: rest, infos => procActions s rest infos

/-- `handle_player_info` (`agent.py` lines 108-123): the whole body is wrapped
in `try`/`except`, so an exception is logged (second component `true`) and the
partially updated global set is kept; `log_players()` (line 121) only runs on
the no-exception path. -/
def handle_player_info (s : List String) (p : PIPacket) : List String × Bool :=
  match procActions s p.actions p.player_infos with
  | Except.ok s2 => (s2, false)
  | Except.error s2 => (s2, true)

/-- Folding a stream of player-info packets through the handler, tracking the
global `online_players` set. -/
def runPackets (s : List String) : List PIPacket → List String
  | [] => s
  | p :: rest => runPackets (handle_player_info s p).1 rest

def onlineLabel : String := "Online players: "
def noneMarker : String := "[none]"
def commaSep : String := ", "

/-- Lexicographic comparison of character lists by code point — the order
Python's `sorted` uses on strings. -/
def listLe : List Char → List Char → Bool
  | [], _ => true
  | _ :: _, [] => false
  | a :: as, b :: bs =>
    if a < b then true
    else if b < a then false
    else listLe as bs

/-- Python's string order, as a relation on Lean strings. -/
def pyLe (a b : String) : Prop := listLe a.data b.data = true

instance pyLeDec : DecidableRel pyLe := fun a b =>
  inferInstanceAs (Decidable (listLe a.data b.data = true))

instance pyLeTotal : IsTotal String pyLe := by
  constructor
  intro a b
  show listLe a.data b.data = true ∨ listLe b.data a.data = true
  generalize a.data = x
  generalize b.data = y
  induction x generalizing y with
  | nil => exact Or.inl rfl
  | cons c cs ih =>
    cases y with
    | nil => exact Or.inr rfl
    | cons d ds =>
      rcases lt_trichotomy c d with h | h | h
      · exact Or.inl (by simp [listLe, h])
      · subst h
        rcases ih ds with h2 | h2
        · exact Or.inl (by simp [listLe, lt_irrefl, h2])
        · exact Or.inr (by simp [listLe, lt_irrefl, h2])
      · exact Or.inr (by simp [listLe, h])

instance pyLeTrans : IsTrans String pyLe := by
  constructor
  intro a b c
  show listLe a.data b.data = true → listLe b.data c.data = true →
    listLe a.data c.data = true
  generalize a.data = x
  generalize b.data = y
  generalize c.data = z
  induction x generalizing y z with
  | nil => intro _ _; rfl
  | cons p ps ih =>
    cases y with
    | nil => intro h; exact absurd h (by simp [listLe])
    | cons q qs =>
      cases z with
      | nil => intro _ h; exact absurd h (by simp [listLe])
      | cons r rs =>
        intro h1 h2
        rcases lt_trichotomy p q with hpq | hpq | hpq
        · rcases lt_trichotomy q r with hqr | hqr | hqr
          · simp [listLe, lt_trans hpq hqr]
          · subst hqr; simp [listLe, hpq]
          · exact absurd h2 (by simp [listLe, hqr, lt_asymm hqr])
        · subst hpq
          rcases lt_trichotomy p r with hpr | hpr | hpr
          · simp [listLe, hpr]
          · subst hpr
            simp only [listLe, if_neg (lt_irrefl p)] at h1 h2 ⊢
            exact ih _ _ h1 h2
          · exact absurd h2 (by simp [listLe, hpr, lt_asymm hpr])
        · exact absurd h1 (by simp [listLe, hpq, lt_asymm hpq])

instance pyLeAntisymm : IsAntisymm String pyLe := by
  constructor
  intro a b
  show listLe a.data b.data = true → listLe b.data a.data = true → a = b
  intro h1 h2
  apply String.ext
  revert h1 h2
  generalize a.data = x
  generalize b.data = y
  induction x generalizing y with
  | nil =>
    cases y with
    | nil => intro _ _; rfl
    | cons d ds => intro _ h; exact absurd h (by simp [listLe])
  | cons c cs ih =>
    cases y with
    | nil => intro h _; exact absurd h (by simp [listLe])
    | cons d ds =>
      intro h1 h2
      rcases lt_trichotomy c d with h | h | h
      · exact absurd h2 (by simp [listLe, h, not_lt_of_gt h])
      · subst h
        simp only [listLe, if_neg (lt_irrefl c)] at h1 h2
        exact congrArg (c :: ·) (ih ds h1 h2)
      · exact absurd h1 (by simp [listLe, h, not_lt_of_gt h])

/-- `log_players` (`agent.py` lines 104-105): the logged line is
`"Online players: " + (', '.join(sorted(online_players)) if online_players
else '[none]')`.  `sorted` on a set of strings is the code-point
lexicographic sort `pyLe`. -/
def log_players_line (s : List String) : String :=
  onlineLabel ++
    (if s = [] then noneMarker
     else String.intercalate commaSep (s.insertionSort pyLe))

/-- Presence events as the spec describes them (§4.3). -/
inductive PEvent where
  | addE (n : String)
  | removeE (n : String)
deriving DecidableEq

/-- Modelled from the spec (§4.3/§8): the mathematically expected presence
set after a sequence of ADD/REMOVE events — plain set insertion and removal. -/
def expectedSet : Finset String → List PEvent → Finset String
  | s, [] => s
  | s, PEvent.addE n :: rest => expectedSet (insert n s) rest
  | s, PEvent.removeE n :: rest => expectedSet (s.erase n) rest

/-- The names carried by a packet's `player_infos` (well-formed entries). -/
def infoNames : List (Option String) → List String
  | [] => []
  | Option.none :: rest => infoNames rest
  | some n :: rest => n :: infoNames rest

/-- The event sequence a packet denotes: one event per (action, info) pair in
processing order. -/
def evAux : List (Option PAction) → List String → List PEvent
  | [], _ => []
  | Option.none :: rest, ns => evAux rest ns
  | some PAction.addPlayer :: rest, ns => ns.map PEvent.addE ++ evAux rest ns
  | some PAction.removePlayer :: rest, ns => ns.map PEvent.removeE ++ evAux rest ns
  | some PAction.otherAction :: rest, ns => evAux rest ns

def eventsOfPacket (p : PIPacket) : List PEvent :=
  evAux p.actions (infoNames p.player_infos)

def eventsOf : List PIPacket → List PEvent
  | [] => []
  | p :: rest => eventsOfPacket p ++ eventsOf rest

/-- A packet none of whose actions or infos raises. -/
def WFPacket (p : PIPacket) : Prop :=
  (∀ a ∈ p.actions, a ≠ Option.none) ∧ (∀ i ∈ p.player_infos, i ≠ Option.none)

instance (p : PIPacket) : Decidable (WFPacket p) := by
  unfold WFPacket; infer_instance

/-- Outcome of one `conn.connect()` call (line 251): success, a raised
`YggdrasilError` (non-retryable authentication failure, lines 255-258), or any
other exception (retryable, lines 259-268). -/
inductive Outcome where
  | success
  | authError
  | retryErr
deriving DecidableEq

/-- Observable result of one `connect_to_server()` call: how many
`conn.connect()` attempts were made, the `time.sleep(retry_delay)` delays
performed between them (in seconds, in order), and the returned boolean. -/
structure ConnTrace where
  attempts : Nat
  delays : List Nat
  success : Bool
deriving DecidableEq

/-- The `while running and retry_count < max_retries` loop of
`connect_to_server` (lines 243-271), with `running` true throughout the call
(the flag is only cleared by a termination signal, which none of the verified
scenarios raises mid-call).  `fuel = max_retries - retry_count`; `rd` is the
current `retry_delay`.  On a retryable failure with `retry_count + 1 <
max_retries` the loop sleeps `retry_delay` seconds and doubles it
(`retry_delay *= 2`, line 265); otherwise it gives up and returns `False`.
`out i` is the outcome of the `i`-th `conn.connect()` attempt of the process
(global numbering), `idx` the index of the next attempt. -/
def connectAux (out : Nat → Outcome) : Nat → Nat → Nat → ConnTrace
  | 0, _, _ => ⟨0, [], false⟩
  | fuel + 1, idx, rd =>
    match out idx with
    | Outcome.success => ⟨1, [], true⟩
    | Outcome.authError => ⟨1, [], false⟩
    | Outcome.retryErr =>
      if fuel = 0 then ⟨1, [], false⟩
      else
        let t := connectAux out fuel (idx + 1) (rd * 2)
        ⟨t.attempts + 1, rd :: t.delays, t.success⟩

/-- `connect_to_server` (`agent.py` lines 235-275): `max_retries = 3`,
`retry_delay = 5`. -/
def connect_to_server (out : Nat → Outcome) (idx : Nat) : ConnTrace :=
  connectAux out 3 idx 5

/-- Timeline events of the monitor thread: a `conn.connect()` attempt (with
its global index) or a `time.sleep` of the given number of seconds. -/
inductive MEvent where
  | att (i : Nat)
  | slp (n : Nat)
deriving DecidableEq

/-- Interleave a `ConnTrace`'s attempts and inter-attempt delays into timeline
events, starting at attempt index `idx` (the trace always carries one delay
less than it has attempts, except the zero-attempt trace). -/
def weave : Nat → Nat → List Nat → List MEvent
  | _, 0, _ => []
  | idx, _ + 1, [] => [MEvent.att idx]
  | idx, a + 1, d :: ds => MEvent.att idx :: MEvent.slp d :: weave (idx + 1) a ds

/-- `connection_monitor` (`agent.py` lines 278-292).  The `List Bool` argument
is the sequence of values the loop observes for the global `running` flag, one
per iteration of `while running`; an exhausted list is read as observing
`false`.  The returned pair is the event timeline and whether the loop
observed `running = false` and exited (as it does when `RunState` becomes
StopRequested).  `active` is the global `connection_active`; on a failed
reconnection the loop sleeps `reconnect_delay = 10` (line 291) and every
iteration ends with the 5-second poll sleep (line 292). -/
def connection_monitor (out : Nat → Outcome) :
    List Bool → Nat → Bool → List MEvent × Bool
  | [], _, _ => ([], true)
  | false :: _, _, _ => ([], true)
  | true :: rest, idx, active =>
    if active then
      let r := connection_monitor out rest idx active
      (MEvent.slp 5 :: r.1, r.2)
    else
      let c := connect_to_server out idx
      let ce := weave idx c.attempts c.delays
      if c.success then
        let r := connection_monitor out rest (idx + c.attempts) true
        (ce ++ MEvent.slp 5 :: r.1, r.2)
      else
        let r := connection_monitor out rest (idx + c.attempts) false
        (ce ++ MEvent.slp 10 :: MEvent.slp 5 :: r.1, r.2)

/-- Number of connect attempts in a timeline. -/
def countAtt : List MEvent → Nat
  | [] => 0
  | MEvent.att _ :: r => countAtt r + 1
  | MEvent.slp _ :: r => countAtt r

/-- Accumulate the sleep seconds between consecutive attempts. -/
def gapsFrom : List MEvent → Nat → List Nat
  | [], _ => []
  | MEvent.slp n :: r, acc => gapsFrom r (acc + n)
  | MEvent.att _ :: r, acc => acc :: gapsFrom r 0

/-- Drop everything up to and including the first attempt. -/
def dropToFirstAtt : List MEvent → List MEvent
  | [] => []
  | MEvent.att _ :: r => r
  | MEvent.slp _ :: r => dropToFirstAtt r

/-- The delays observed between successive connect attempts of a timeline
(sleep seconds summed between consecutive attempts). -/
def interDelays (evs : List MEvent) : List Nat :=
  gapsFrom (dropToFirstAtt evs) 0

/-- The timeline the monitor produces for `n` consecutive all-failing
reconnection cycles starting at attempt index `idx`: each cycle is the
bounded backoff path (3 attempts, sleeps 5 then 10) followed by the fixed
`reconnect_delay = 10` and the 5-second poll sleep. -/
def cyclesList : Nat → Nat → List MEvent
  | _, 0 => []
  | idx, n + 1 =>
    weave idx 3 [5, 10] ++ MEvent.slp 10 :: MEvent.slp 5 :: cyclesList (idx + 3) n

/-- Observable result of the module main block. -/
structure MainRes where
  monitorStarted : Bool
  exitCode : Nat
deriving DecidableEq

/-- The module main block (`agent.py` lines 295-311): on a successful initial
`connect_to_server()` the monitor thread is started; otherwise the script
logs `Failed to establish initial connection. Exiting.` and falls through.
No path calls `sys.exit`, and the `finally` clause only runs
`handle_shutdown`, so the interpreter exits with status 0 on every non-crash
path. -/
def module_main (out : Nat → Outcome) : MainRes :=
  let c := connect_to_server out 0
  ⟨c.success, 0⟩

/-- Attempt-outcome stream in which every `conn.connect()` raises a retryable
error. -/
def allRetry : Nat → Outcome := fun _ => Outcome.retryErr

/-- Attempt-outcome stream in which every `conn.connect()` raises
`YggdrasilError` (bad credentials). -/
def allAuth : Nat → Outcome := fun _ => Outcome.authError

/-- The agent name used in the source's own example comment
(`# Example: "AgentBot1, say hello!"`, line 163). -/
def agentName : List Char := "AgentBot1".toList

/-- A 260-character `say` argument, longer than the 256-character chat limit. -/
def longArg : List Char := List.replicate 259 'a' ++ ['a']

/-- A chat text instructing the agent to say `longArg`. -/
def longSayText : List Char := agentName ++ [' '] ++ sayLit ++ longArg

/-- A concrete packet stream exercising idempotent add and
remove-when-absent. -/
def demoPackets : List PIPacket :=
  [⟨[some PAction.addPlayer], [some "bob", some "alice"]⟩,
   ⟨[some PAction.addPlayer], [some "alice"]⟩,
   ⟨[some PAction.removePlayer], [some "carol"]⟩,
   ⟨[some PAction.removePlayer, some PAction.otherAction], [some "bob"]⟩]

/-! ## Helper lemmas -/

theorem startsWithL_append_self : ∀ l t : List Char, startsWithL (l ++ t) l = true
  | [], t => by cases t <;> rfl
  | c :: cs, t => by simp [startsWithL, startsWithL_append_self cs t]

theorem dropWhile_stop_append (p : Char → Bool) (x : Char) (xs : List Char)
    (hx : p x = false) (A : List Char) :
    List.dropWhile p (A ++ x :: xs) = List.dropWhile p A ++ x :: xs := by
  induction A with
  | nil => simp [List.dropWhile_cons, hx]
  | cons a as ih =>
    by_cases h : p a <;> simp [List.dropWhile_cons, h, ih]

theorem rstripSp_append_last (l : List Char) (c : Char) (hc : isPySpace c = false) :
    rstripSp (l ++ [c]) = l ++ [c] := by
  simp [rstripSp, List.dropWhile_cons, hc]

theorem rstripSp_append_sp (l ws : List Char) (hws : ∀ c ∈ ws, isPySpace c = true) :
    rstripSp (l ++ ws) = rstripSp l := by
  unfold rstripSp
  rw [List.reverse_append,
    List.dropWhile_append_of_pos (fun a ha => hws a (List.mem_reverse.mp ha))]

theorem lstripSep_skip (A : List Char)
    (hA : ∀ ch ∈ A, (ch == ',' || ch == ':' || ch == ' ') = true)
    (x : Char) (xs : List Char)
    (hx : (x == ',' || x == ':' || x == ' ') = false) :
    lstripSep (A ++ x :: xs) = x :: xs := by
  unfold lstripSep
  rw [List.dropWhile_append_of_pos hA]
  simp [List.dropWhile_cons, hx]

/-- The separator characters accepted by `lstrip(",: ")` all satisfy the
boolean separator test. -/
theorem sep_sat (sep : List Char) (hsep : ∀ ch ∈ sep, ch = ',' ∨ ch = ':' ∨ ch = ' ') :
    ∀ ch ∈ sep.dropWhile isPySpace, (ch == ',' || ch == ':' || ch == ' ') = true := by
  intro ch hch
  have hm : ch ∈ sep := (List.dropWhile_sublist isPySpace).subset hch
  rcases hsep ch hm with h | h | h <;> simp [h]

/-- Normalisation of `msg_text[len(username):].strip().lstrip(",: ")` for a
text of the form `<sep>say <mid><c>` where `c` is not whitespace. -/
theorem strip_cmd_say (sep mid : List Char) (c : Char)
    (hsep : ∀ ch ∈ sep, ch = ',' ∨ ch = ':' ∨ ch = ' ')
    (hc : isPySpace c = false) :
    lstripSep (stripPy (sep ++ (sayLit ++ (mid ++ [c])))) = sayLit ++ (mid ++ [c]) := by
  unfold stripPy
  rw [show sep ++ (sayLit ++ (mid ++ [c]))
      = sep ++ 's' :: (['a', 'y', ' '] ++ (mid ++ [c])) by simp [sayLit]]
  rw [dropWhile_stop_append isPySpace 's' _ (by decide)]
  rw [show List.dropWhile isPySpace sep ++ 's' :: (['a', 'y', ' '] ++ (mid ++ [c]))
      = (List.dropWhile isPySpace sep ++ ['s', 'a', 'y', ' '] ++ mid) ++ [c] by simp]
  rw [rstripSp_append_last _ c hc]
  rw [show (List.dropWhile isPySpace sep ++ ['s', 'a', 'y', ' '] ++ mid) ++ [c]
      = List.dropWhile isPySpace sep ++ 's' :: (['a', 'y', ' '] ++ (mid ++ [c])) by simp]
  rw [lstripSep_skip _ (sep_sat sep hsep) 's' _ (by decide)]
  simp [sayLit]

/-- Normalisation for a text of the form `<sep>say<trailing whitespace>`:
`strip()` eats the trailing whitespace, leaving the bare verb. -/
theorem strip_cmd_say_bare (sep ws : List Char)
    (hsep : ∀ ch ∈ sep, ch = ',' ∨ ch = ':' ∨ ch = ' ')
    (hws : ∀ ch ∈ ws, isPySpace ch = true) :
    lstripSep (stripPy (sep ++ (['s', 'a', 'y'] ++ ws))) = ['s', 'a', 'y'] := by
  unfold stripPy
  rw [show sep ++ (['s', 'a', 'y'] ++ ws) = sep ++ 's' :: (['a', 'y'] ++ ws) by simp]
  rw [dropWhile_stop_append isPySpace 's' _ (by decide)]
  rw [show List.dropWhile isPySpace sep ++ 's' :: (['a', 'y'] ++ ws)
      = (List.dropWhile isPySpace sep ++ ['s', 'a', 'y']) ++ ws by simp]
  rw [rstripSp_append_sp _ ws hws]
  rw [show List.dropWhile isPySpace sep ++ ['s', 'a', 'y']
      = (List.dropWhile isPySpace sep ++ ['s', 'a']) ++ ['y'] by simp]
  rw [rstripSp_append_last _ 'y' (by decide)]
  rw [show (List.dropWhile isPySpace sep ++ ['s', 'a']) ++ ['y']
      = List.dropWhile isPySpace sep ++ 's' :: ['a', 'y'] by simp]
  rw [lstripSep_skip _ (sep_sat sep hsep) 's' _ (by decide)]

/-- The prefix test and slice of `parse_command` against a case-variant of the
agent's name. -/
theorem parse_command_reduce (uname nm tail : List Char)
    (hname : toLowerL nm = toLowerL uname) :
    parse_command uname (nm ++ tail)
      = (let cmd := lstripSep (stripPy tail);
         if startsWithL (toLowerL cmd) sayLit then Cmd.say (cmd.drop 4)
         else if startsWithL (toLowerL cmd) jumpLit then Cmd.jump
         else Cmd.none) := by
  have hlen : nm.length = uname.length := by
    have h := congrArg List.length hname
    simpa [toLowerL] using h
  have hstart : startsWithL (toLowerL (nm ++ tail)) (toLowerL uname) = true := by
    rw [toLowerL, List.map_append, ← toLowerL, ← toLowerL, hname]
    exact startsWithL_append_self _ _
  unfold parse_command
  rw [hstart, if_pos rfl, List.drop_left' hlen]

/-- `parse_command` on `<name><sep>say <rest>` with a non-whitespace final
character returns `Cmd.say rest`. -/
theorem parse_command_say_full (uname nm sep mid : List Char) (c : Char)
    (hname : toLowerL nm = toLowerL uname)
    (hsep : ∀ ch ∈ sep, ch = ',' ∨ ch = ':' ∨ ch = ' ')
    (hc : isPySpace c = false) :
    parse_command uname (nm ++ (sep ++ (sayLit ++ (mid ++ [c]))))
      = Cmd.say (mid ++ [c]) := by
  rw [parse_command_reduce uname nm _ hname]
  simp only [strip_cmd_say sep mid c hsep hc]
  have hsw : startsWithL (toLowerL (sayLit ++ (mid ++ [c]))) sayLit = true := by
    rw [toLowerL, List.map_append, show sayLit.map Char.toLower = sayLit by decide]
    exact startsWithL_append_self _ _
  have hdrop : (sayLit ++ (mid ++ [c])).drop 4 = mid ++ [c] :=
    List.drop_left' (by decide)
  simp [hsw, hdrop]

/-- `parse_command` on `<name><sep>say<whitespace>` — the verb with nothing
following — returns `Cmd.none`, not `Cmd.say []`. -/
theorem parse_command_say_bare (uname nm sep ws : List Char)
    (hname : toLowerL nm = toLowerL uname)
    (hsep : ∀ ch ∈ sep, ch = ',' ∨ ch = ':' ∨ ch = ' ')
    (hws : ∀ ch ∈ ws, isPySpace ch = true) :
    parse_command uname (nm ++ (sep ++ (['s', 'a', 'y'] ++ ws))) = Cmd.none := by
  rw [parse_command_reduce uname nm _ hname]
  simp only [strip_cmd_say_bare sep ws hsep hws]
  decide

/-! ## Claim C3 -/

/-- C3 counterexample: the chat text `AgentBot1 say` is the agent's name, a
space separator and the verb `say` with nothing following; the claim predicts
`Say` with empty remainder, but `parse_command` returns the null command
(`cmd.lower().startswith("say ")` fails on the stripped `"say"`). -/
theorem parse_command_bare_say_cex :
    parse_command agentName "AgentBot1 say".toList = Cmd.none ∧
    Cmd.none ≠ Cmd.say [] := by
  constructor
  · decide
  · intro h; cases h

/-- C3 (amended): for every chat text built from a case-variant of the agent's
name, zero or more separator characters (comma, colon, space), the verb
`say ` and a remainder ending in a non-whitespace character, `parse_command`
returns `Say` with exactly that remainder; when only whitespace (or nothing)
follows the verb `say`, it returns the null command instead of `Say` with an
empty remainder. -/
theorem parse_command_say_behavior :
    (∀ (uname nm sep mid : List Char) (c : Char),
      toLowerL nm = toLowerL uname →
      (∀ ch ∈ sep, ch = ',' ∨ ch = ':' ∨ ch = ' ') →
      isPySpace c = false →
      parse_command uname (nm ++ (sep ++ (sayLit ++ (mid ++ [c]))))
        = Cmd.say (mid ++ [c])) ∧
    (∀ uname nm sep ws : List Char,
      toLowerL nm = toLowerL uname →
      (∀ ch ∈ sep, ch = ',' ∨ ch = ':' ∨ ch = ' ') →
      (∀ ch ∈ ws, isPySpace ch = true) →
      parse_command uname (nm ++ (sep ++ (['s', 'a', 'y'] ++ ws))) = Cmd.none) := by
  constructor
  · intro uname nm sep mid c hname hsep hc
    exact parse_command_say_full uname nm sep mid c hname hsep hc
  · intro uname nm sep ws hname hsep hws
    exact parse_command_say_bare uname nm sep ws hname hsep hws

/-- C3 witness: both branches of `parse_command_say_behavior` applied at
concrete inputs (`"AgentBot1, say hi"` and the case-variant
`"agentbot1 say "`). -/
theorem parse_command_say_behavior_witness :
    parse_command agentName "AgentBot1, say hi".toList = Cmd.say "hi".toList ∧
    parse_command agentName "agentbot1 say ".toList = Cmd.none := by
  constructor
  · have e : "AgentBot1, say hi".toList
        = agentName ++ ([',', ' '] ++ (sayLit ++ (['h'] ++ ['i']))) := by decide
    rw [e]
    exact parse_command_say_behavior.1 agentName agentName [',', ' '] ['h'] 'i'
      rfl (by decide) (by decide)
  · have e : "agentbot1 say ".toList
        = "agentbot1".toList ++ ([' '] ++ (['s', 'a', 'y'] ++ [' '])) := by decide
    rw [e]
    exact parse_command_say_behavior.2 agentName "agentbot1".toList [' '] [' ']
      (by decide) (by decide) (by decide)

/-! ## Claim C2 -/

/-- C2 counterexample: a `say` command whose 260-character argument is
transmitted verbatim — `send_chat` receives (and transmits) a chat text
longer than the 256-character protocol limit, so not every transmitted chat
message is truncated to the limit. -/
theorem send_chat_say_untruncated_cex :
    (handle_chatCore agentName longSayText CompResult.err).sent = [longArg] ∧
    256 < longArg.length := by
  have he : longSayText
      = agentName ++ ([' '] ++ (sayLit ++ (List.replicate 259 'a' ++ ['a']))) := by
    simp [longSayText, longArg, agentName]
  have hp : parse_command agentName longSayText = Cmd.say longArg := by
    rw [he]
    exact parse_command_say_full agentName agentName [' '] (List.replicate 259 'a') 'a'
      rfl (by decide) (by decide)
  constructor
  · unfold handle_chatCore
    rw [hp]
  · simp [longArg]

/-- C2 (amended): only the completion-collaborator reply is truncated —
after Python's `.strip()` — to the 256-character chat limit before
transmission (`send_chat(reply[:256])`, line 203); the `say` command path
passes its argument to `send_chat` verbatim, with no truncation anywhere. -/
theorem chat_truncation_completion_only :
    (∀ uname t content : List Char,
      parse_command uname t = Cmd.none →
      (containsSub (toLowerL t) (toLowerL uname)
        || containsSub (toLowerL t) agentbotAlias) = true →
      (handle_chatCore uname t (CompResult.ok content)).sent
        = [(stripPy content).take 256] ∧
      ∀ m ∈ (handle_chatCore uname t (CompResult.ok content)).sent,
        m.length ≤ 256) ∧
    (∀ (uname t arg : List Char) (comp : CompResult),
      parse_command uname t = Cmd.say arg →
      (handle_chatCore uname t comp).sent = [arg]) := by
  constructor
  · intro uname t content hparse hmention
    have hres : handle_chatCore uname t (CompResult.ok content)
        = ⟨[(stripPy content).take 256], true, false⟩ := by
      unfold handle_chatCore
      rw [hparse, hmention]
      simp
    refine ⟨by rw [hres], ?_⟩
    rw [hres]
    intro m hm
    rw [List.mem_singleton.mp hm]
    simp
  · intro uname t arg comp hparse
    unfold handle_chatCore
    rw [hparse]

/-- C2 witness: the completion branch applied at a concrete 300-character
reply (truncated to 256) and the say branch at a concrete command. -/
theorem chat_truncation_completion_only_witness :
    ((handle_chatCore agentName "AgentBot1 hello".toList
        (CompResult.ok (List.replicate 300 'b'))).sent
      = [(stripPy (List.replicate 300 'b')).take 256] ∧
     ∀ m ∈ (handle_chatCore agentName "AgentBot1 hello".toList
        (CompResult.ok (List.replicate 300 'b'))).sent, m.length ≤ 256) ∧
    (handle_chatCore agentName "AgentBot1 say ok".toList CompResult.err).sent
      = ["ok".toList] := by
  constructor
  · exact chat_truncation_completion_only.1 agentName "AgentBot1 hello".toList
      (List.replicate 300 'b') (by decide) (by decide)
  · exact chat_truncation_completion_only.2 agentName "AgentBot1 say ok".toList
      "ok".toList CompResult.err (by decide)

/-! ## Claim C4 -/

/-- C4: on first connect, three consecutive retryable failures produce exactly
three `conn.connect()` attempts with inter-attempt delays of 5 s then 10 s
(`retry_delay *= 2` after each retryable failure), after which
`connect_to_server` gives up (`False`) and no fourth attempt occurs. -/
theorem initial_connect_three_attempts_backoff (out : Nat → Outcome)
    (h0 : out 0 = Outcome.retryErr) (h1 : out 1 = Outcome.retryErr)
    (h2 : out 2 = Outcome.retryErr) :
    connect_to_server out 0 = ⟨3, [5, 10], false⟩ := by
  simp [connect_to_server, connectAux, h0, h1, h2]

/-- C4 witness: the theorem applied to the all-retryable outcome stream. -/
theorem initial_connect_three_attempts_backoff_witness :
    allRetry 0 = Outcome.retryErr ∧ allRetry 1 = Outcome.retryErr ∧
    allRetry 2 = Outcome.retryErr ∧
    connect_to_server allRetry 0 = ⟨3, [5, 10], false⟩ :=
  ⟨rfl, rfl, rfl, initial_connect_three_attempts_backoff allRetry rfl rfl rfl⟩

/-! ## Claim C5 -/

/-- C5 counterexample: with bad credentials, the initial connect makes exactly
one attempt, yet the process exit status is 0 — not the non-zero status the
claim asserts (`agent.py` never calls `sys.exit`; after logging
`Failed to establish initial connection. Exiting.` the script falls off the
module and the interpreter exits 0). -/
theorem auth_failure_exit_zero_cex :
    (connect_to_server allAuth 0).attempts = 1 ∧
    (module_main allAuth).exitCode = 0 := by decide

/-- C5 (amended): a non-retryable authentication failure (`YggdrasilError`)
during the initial connect aborts immediately — one attempt, no retry delays,
`False` returned — and is fatal to startup (the monitor thread is never
started); the process then exits with status 0, not a non-zero status. -/
theorem auth_failure_aborts_startup (out : Nat → Outcome)
    (h : out 0 = Outcome.authError) :
    connect_to_server out 0 = ⟨1, [], false⟩ ∧
    module_main out = ⟨false, 0⟩ := by
  have hc : connect_to_server out 0 = ⟨1, [], false⟩ := by
    simp [connect_to_server, connectAux, h]
  exact ⟨hc, by simp [module_main, hc]⟩

/-- C5 witness: the theorem applied to the all-auth-failure outcome stream. -/
theorem auth_failure_aborts_startup_witness :
    allAuth 0 = Outcome.authError ∧
    (connect_to_server allAuth 0 = ⟨1, [], false⟩ ∧
     module_main allAuth = ⟨false, 0⟩) :=
  ⟨rfl, auth_failure_aborts_startup allAuth rfl⟩

/-! ## Claim C6 -/

/-- C6: when a chat message reaches the completion call and that call raises
or times out, exactly the fixed fallback notice is sent as chat, the failure
is logged (`[OpenAI Error] …`), and the failure does not escape the handler;
moreover `handle_chat` returns normally (never propagates) whenever the
extracted text is a string, for every completion outcome. -/
theorem completion_failure_sends_fallback :
    (∀ uname t : List Char,
      parse_command uname t = Cmd.none →
      (containsSub (toLowerL t) (toLowerL uname)
        || containsSub (toLowerL t) agentbotAlias) = true →
      handle_chatCore uname t CompResult.err = ⟨[fallbackNotice], true, true⟩) ∧
    (∀ (uname : List Char) (p : Packet) (comp : CompResult) (t : List Char),
      extract_text p = TextVal.str t →
      handle_chat uname p comp = Except.ok (handle_chatCore uname t comp)) := by
  constructor
  · intro uname t hparse hmention
    unfold handle_chatCore
    rw [hparse, hmention]
    simp
  · intro uname p comp t hext
    unfold handle_chat
    rw [hext]

/-- C6 witness: the fallback branch at a concrete addressed message, and
non-propagation at a concrete packet. -/
theorem completion_failure_sends_fallback_witness :
    handle_chatCore agentName "AgentBot1 hi".toList CompResult.err
      = ⟨[fallbackNotice], true, true⟩ ∧
    handle_chat agentName ⟨Option.none, some "x".toList, []⟩ CompResult.err
      = Except.ok (handle_chatCore agentName "x".toList CompResult.err) := by
  constructor
  · exact completion_failure_sends_fallback.1 agentName "AgentBot1 hi".toList
      (by decide) (by decide)
  · exact completion_failure_sends_fallback.2 agentName
      ⟨Option.none, some "x".toList, []⟩ CompResult.err "x".toList rfl

/-! ## Claim C7 -/

theorem joinParts_map_mkSeg :
    ∀ ts : List (List Char), joinParts (ts.map mkSeg) = Except.ok (concatTexts ts) := by
  intro ts
  induction ts with
  | nil => rfl
  | cons t rest ih => simp [joinParts, partText, mkSeg, lookupKey, ih, concatTexts]

/-- C7: text extraction never throws — a structured payload whose `extra`
list holds text segments yields their concatenation in order, a payload with
only a single `text` field yields that text, and an unparseable payload
(`json.loads` fails) degrades to the raw fallback
`getattr(packet, 'message', str(packet))`. -/
theorem extract_text_total_cases :
    (∀ (ts : List (List Char)) (m : Option (List Char)) (r : List Char),
      extract_text ⟨some (JVal.jobj [(keyExtra, JVal.jarr (ts.map mkSeg))]), m, r⟩
        = TextVal.str (concatTexts ts)) ∧
    (∀ (s : List Char) (m : Option (List Char)) (r : List Char),
      extract_text ⟨some (JVal.jobj [(keyText, JVal.jstr s)]), m, r⟩
        = TextVal.str s) ∧
    (∀ (m : Option (List Char)) (r : List Char),
      extract_text ⟨Option.none, m, r⟩ = TextVal.str (m.getD r)) := by
  refine ⟨?_, ?_, ?_⟩
  · intro ts m r
    simp [extract_text, extract_try, lookupKey, joinParts_map_mkSeg ts]
  · intro s m r
    simp [extract_text, extract_try, lookupKey, keyText, keyExtra]
  · intro m r
    rfl

/-! ## Claim C9 -/

/-- C9: for every liveness probe carrying a nonce, the keepalive responder
builds an acknowledgement carrying exactly that nonce and hands it to the
session's `write_packet`; a raising `write_packet` is caught and logged, and
the session state is unchanged in every case. -/
theorem keepalive_echoes_nonce :
    ∀ (σ : Type) (st : σ) (n : Int) (wr : SendOutcome),
      (handle_keepalive st (some n) wr).ackNonce = some n ∧
      (handle_keepalive st (some n) wr).state = st ∧
      ((handle_keepalive st (some n) wr).errLogged = true ↔ wr = SendOutcome.sfail) := by
  intro σ st n wr
  cases wr <;> simp [handle_keepalive]

/-! ## Claim C1 -/

theorem connect_all_retry (out : Nat → Outcome)
    (hout : ∀ i, out i = Outcome.retryErr) (idx : Nat) :
    connect_to_server out idx = ⟨3, [5, 10], false⟩ := by
  simp [connect_to_server, connectAux, hout idx, hout (idx + 1), hout (idx + 2)]

theorem monitor_all_fail (out : Nat → Outcome)
    (hout : ∀ i, out i = Outcome.retryErr) :
    ∀ n idx, connection_monitor out (List.replicate n true) idx false
      = (cyclesList idx n, true) := by
  intro n
  induction n with
  | zero => intro idx; rfl
  | succ k ih =>
    intro idx
    rw [List.replicate_succ]
    simp only [connection_monitor, if_neg (Bool.false_ne_true)]
    rw [connect_all_retry out hout idx]
    simp [ih (idx + 3), cyclesList]

theorem countAtt_append : ∀ a b : List MEvent, countAtt (a ++ b) = countAtt a + countAtt b := by
  intro a b
  induction a with
  | nil => simp [countAtt]
  | cons e rest ih =>
    cases e with
    | att i =>
      simp [countAtt, ih]
      omega
    | slp m => simp [countAtt, ih]

theorem countAtt_cycles : ∀ (n idx : Nat), countAtt (cyclesList idx n) = 3 * n := by
  intro n
  induction n with
  | zero => intro idx; rfl
  | succ k ih =>
    intro idx
    simp only [cyclesList, countAtt_append]
    simp [weave, countAtt, ih (idx + 3)]
    omega

/-- C1 counterexample: two consecutive failing reconnection cycles of the
monitor produce inter-attempt delays 5, 10, 15, 5, 10 seconds — not a fixed
steady-state delay: each cycle re-enters `connect_to_server`'s exponential
backoff (5 s then 10 s) before the fixed 10 s + 5 s between cycles. -/
theorem monitor_delays_not_fixed_cex :
    interDelays (connection_monitor allRetry (List.replicate 2 true) 0 false).1
      = [5, 10, 15, 5, 10] ∧
    ¬ (∀ d1 ∈ interDelays (connection_monitor allRetry (List.replicate 2 true) 0 false).1,
       ∀ d2 ∈ interDelays (connection_monitor allRetry (List.replicate 2 true) 0 false).1,
       d1 = d2) := by
  constructor
  · decide
  · decide

/-- C1 (amended): after a prior successful connection, on liveness loss the
monitor loop keeps attempting reconnection indefinitely — `3 * n` attempts
over any `n` all-failing cycles, with no ceiling on the number of cycles —
and exits as soon as it observes `running = false`; but the delay between
successive attempts is not fixed: every cycle re-runs the bounded
connect-and-retry path (3 attempts with backoff delays 5 s then 10 s, reset
each cycle) followed by the fixed `reconnect_delay` 10 s plus the 5 s poll
sleep. -/
theorem monitor_reconnect_cycles_indefinitely (n : Nat) (out : Nat → Outcome)
    (hout : ∀ i, out i = Outcome.retryErr) :
    connection_monitor out (List.replicate n true) 0 false = (cyclesList 0 n, true) ∧
    countAtt (cyclesList 0 n) = 3 * n :=
  ⟨monitor_all_fail out hout n 0, countAtt_cycles n 0⟩

/-- C1 witness: the theorem applied to three all-failing cycles. -/
theorem monitor_reconnect_cycles_indefinitely_witness :
    (∀ i, allRetry i = Outcome.retryErr) ∧
    (connection_monitor allRetry (List.replicate 3 true) 0 false
      = (cyclesList 0 3, true) ∧
     countAtt (cyclesList 0 3) = 3 * 3) :=
  ⟨fun _ => rfl, monitor_reconnect_cycles_indefinitely 3 allRetry (fun _ => rfl)⟩

/-! ## Claims C8 and C10: presence tracking -/

theorem toFinset_pyAdd (s : List String) (n : String) :
    (pyAdd s n).toFinset = insert n s.toFinset := by
  by_cases h : n ∈ s
  · simp [pyAdd, h, Finset.insert_eq_self, List.mem_toFinset]
  · simp [pyAdd, h, Finset.union_comm, Finset.insert_eq]

theorem nodup_pyAdd (s : List String) (n : String) (h : s.Nodup) :
    (pyAdd s n).Nodup := by
  by_cases hm : n ∈ s
  · simpa [pyAdd, hm] using h
  · simp [pyAdd, hm, List.nodup_append, h]

theorem toFinset_pyErase (s : List String) (n : String) (h : s.Nodup) :
    (if n ∈ s then s.erase n else s).toFinset = s.toFinset.erase n := by
  by_cases hm : n ∈ s
  · rw [if_pos hm]
    ext a
    simp [List.mem_toFinset, List.Nodup.mem_erase_iff h, Finset.mem_erase]
  · rw [if_neg hm, Finset.erase_eq_of_not_mem (by simpa [List.mem_toFinset] using hm)]

theorem expectedSet_append (l1 l2 : List PEvent) :
    ∀ t : Finset String, expectedSet t (l1 ++ l2) = expectedSet (expectedSet t l1) l2 := by
  induction l1 with
  | nil => intro t; rfl
  | cons e rest ih =>
    intro t
    cases e <;> simp [expectedSet, ih]

theorem addInfos_spec (infos : List (Option String)) :
    ∀ s : List String, (∀ i ∈ infos, i ≠ Option.none) → s.Nodup →
    ∃ s2, addInfos s infos = Except.ok s2 ∧ s2.Nodup ∧
      s2.toFinset = expectedSet s.toFinset ((infoNames infos).map PEvent.addE) := by
  induction infos with
  | nil => intro s _ hs; exact ⟨s, rfl, hs, rfl⟩
  | cons i rest ih =>
    intro s hwf hs
    match i, hwf i (List.mem_cons_self i rest) with
    | some n, _ =>
      obtain ⟨s2, he, hnd, hfs⟩ :=
        ih (pyAdd s n) (fun j hj => hwf j (List.mem_cons_of_mem _ hj))
          (nodup_pyAdd s n hs)
      refine ⟨s2, ?_, hnd, ?_⟩
      · simpa [addInfos] using he
      · rw [hfs, toFinset_pyAdd]
        simp [infoNames, expectedSet]

theorem removeInfos_spec (infos : List (Option String)) :
    ∀ s : List String, (∀ i ∈ infos, i ≠ Option.none) → s.Nodup →
    ∃ s2, removeInfos s infos = Except.ok s2 ∧ s2.Nodup ∧
      s2.toFinset = expectedSet s.toFinset ((infoNames infos).map PEvent.removeE) := by
  induction infos with
  | nil => intro s _ hs; exact ⟨s, rfl, hs, rfl⟩
  | cons i rest ih =>
    intro s hwf hs
    match i, hwf i (List.mem_cons_self i rest) with
    | some n, _ =>
      have hnd2 : (if n ∈ s then s.erase n else s).Nodup := by
        by_cases hm : n ∈ s <;> simp [hm, hs, List.Nodup.erase, hs.erase]
      obtain ⟨s2, he, hnd, hfs⟩ :=
        ih (if n ∈ s then s.erase n else s)
          (fun j hj => hwf j (List.mem_cons_of_mem _ hj)) hnd2
      refine ⟨s2, ?_, hnd, ?_⟩
      · simpa [removeInfos] using he
      · rw [hfs, toFinset_pyErase s n hs]
        simp [infoNames, expectedSet]

theorem procActions_spec (acts : List (Option PAction)) (infos : List (Option String)) :
    ∀ s : List String, (∀ a ∈ acts, a ≠ Option.none) →
      (∀ i ∈ infos, i ≠ Option.none) → s.Nodup →
    ∃ s2, procActions s acts infos = Except.ok s2 ∧ s2.Nodup ∧
      s2.toFinset = expectedSet s.toFinset (evAux acts (infoNames infos)) := by
  induction acts with
  | nil => intro s _ _ hs; exact ⟨s, rfl, hs, rfl⟩
  | cons a rest ih =>
    intro s hwa hwi hs
    match a, hwa a (List.mem_cons_self a rest) with
    | some PAction.addPlayer, _ =>
      obtain ⟨s2, he, hnd2, hfs2⟩ := addInfos_spec infos s hwi hs
      obtain ⟨s3, he3, hnd3, hfs3⟩ :=
        ih s2 (fun b hb => hwa b (List.mem_cons_of_mem _ hb)) hwi hnd2
      refine ⟨s3, ?_, hnd3, ?_⟩
      · simp [procActions, he, he3]
      · rw [hfs3, hfs2, evAux, expectedSet_append]
    | some PAction.removePlayer, _ =>
      obtain ⟨s2, he, hnd2, hfs2⟩ := removeInfos_spec infos s hwi hs
      obtain ⟨s3, he3, hnd3, hfs3⟩ :=
        ih s2 (fun b hb => hwa b (List.mem_cons_of_mem _ hb)) hwi hnd2
      refine ⟨s3, ?_, hnd3, ?_⟩
      · simp [procActions, he, he3]
      · rw [hfs3, hfs2, evAux, expectedSet_append]
    | some PAction.otherAction, _ =>
      obtain ⟨s3, he3, hnd3, hfs3⟩ :=
        ih s (fun b hb => hwa b (List.mem_cons_of_mem _ hb)) hwi hs
      exact ⟨s3, by simp [procActions, he3], hnd3, by rw [hfs3, evAux]⟩

theorem runPackets_spec (ps : List PIPacket) :
    ∀ s : List String, (∀ p ∈ ps, WFPacket p) → s.Nodup →
    (runPackets s ps).Nodup ∧
      (runPackets s ps).toFinset = expectedSet s.toFinset (eventsOf ps) := by
  induction ps with
  | nil => intro s _ hs; exact ⟨hs, rfl⟩
  | cons p rest ih =>
    intro s hwf hs
    obtain ⟨hwa, hwi⟩ := hwf p (List.mem_cons_self p rest)
    obtain ⟨s2, he, hnd2, hfs2⟩ := procActions_spec p.actions p.player_infos s hwa hwi hs
    have hh : handle_player_info s p = (s2, false) := by
      simp [handle_player_info, he]
    obtain ⟨hnd3, hfs3⟩ := ih s2 (fun q hq => hwf q (List.mem_cons_of_mem _ hq)) hnd2
    refine ⟨by simpa [runPackets, hh] using hnd3, ?_⟩
    rw [show runPackets s (p :: rest) = runPackets s2 rest by simp [runPackets, hh]]
    rw [hfs3, hfs2, eventsOf, eventsOfPacket, expectedSet_append]

/-- C8: over any well-formed sequence of player-info packets, the presence
set tracked by `handle_player_info` equals the mathematically expected set of
the corresponding ADD/REMOVE events (with the code's add idempotent and its
remove-when-absent a no-op), and `log_players` formats the report line as
`Online players: <comma-separated sorted names>` for a non-empty set and
`Online players: [none]` for the empty set. -/
theorem presence_set_and_log_format (s : List String) (ps : List PIPacket)
    (hs : s.Nodup) (hwf : ∀ p ∈ ps, WFPacket p) :
    (runPackets s ps).toFinset = expectedSet s.toFinset (eventsOf ps) ∧
    (∀ (t : List String) (n : String), n ∈ t → pyAdd t n = t) ∧
    (∀ (t : List String) (n : String), n ∉ t →
      (if n ∈ t then t.erase n else t) = t) ∧
    (runPackets s ps = [] →
      log_players_line (runPackets s ps) = "Online players: [none]") ∧
    (runPackets s ps ≠ [] →
      log_players_line (runPackets s ps)
        = "Online players: "
          ++ String.intercalate commaSep ((runPackets s ps).insertionSort pyLe)) ∧
    ((runPackets s ps).insertionSort pyLe).Sorted pyLe ∧
    ((runPackets s ps).insertionSort pyLe).toFinset
      = expectedSet s.toFinset (eventsOf ps) := by
  obtain ⟨hnd, hfs⟩ := runPackets_spec ps s hwf hs
  refine ⟨hfs, ?_, ?_, ?_, ?_, ?_, ?_⟩
  · intro t n h; simp [pyAdd, h]
  · intro t n h; simp [h]
  · intro he; rw [he]; decide
  · intro hne
    unfold log_players_line
    rw [if_neg hne]
    rfl
  · exact List.sorted_insertionSort pyLe _
  · rw [show ((runPackets s ps).insertionSort pyLe).toFinset = (runPackets s ps).toFinset by
        ext a
        simp [List.mem_toFinset, (List.perm_insertionSort pyLe (runPackets s ps)).mem_iff]]
    exact hfs

/-- C8 witness: the theorem applied to a concrete packet stream exercising
idempotent add, remove-when-absent and the log format. -/
theorem presence_set_and_log_format_witness :
    (List.Nodup ([] : List String)) ∧ (∀ p ∈ demoPackets, WFPacket p) ∧
    ((runPackets [] demoPackets).toFinset
        = expectedSet ([] : List String).toFinset (eventsOf demoPackets) ∧
     (∀ (t : List String) (n : String), n ∈ t → pyAdd t n = t) ∧
     (∀ (t : List String) (n : String), n ∉ t →
       (if n ∈ t then t.erase n else t) = t) ∧
     (runPackets [] demoPackets = [] →
       log_players_line (runPackets [] demoPackets) = "Online players: [none]") ∧
     (runPackets [] demoPackets ≠ [] →
       log_players_line (runPackets [] demoPackets)
         = "Online players: "
           ++ String.intercalate commaSep
             ((runPackets [] demoPackets).insertionSort pyLe)) ∧
     ((runPackets [] demoPackets).insertionSort pyLe).Sorted pyLe ∧
     ((runPackets [] demoPackets).insertionSort pyLe).toFinset
       = expectedSet ([] : List String).toFinset (eventsOf demoPackets)) :=
  ⟨List.nodup_nil, by decide,
   presence_set_and_log_format [] demoPackets List.nodup_nil (by decide)⟩

theorem addInfos_error_partial (pre : List String) :
    ∀ (s : List String) (suf : List (Option String)),
      addInfos s (pre.map some ++ Option.none :: suf)
        = Except.error (List.foldl pyAdd s pre) := by
  induction pre with
  | nil => intro s suf; rfl
  | cons n rest ih => intro s suf; simpa [addInfos] using ih (pyAdd s n) suf

theorem removeInfos_error_partial (pre : List String) :
    ∀ (s : List String) (suf : List (Option String)),
      removeInfos s (pre.map some ++ Option.none :: suf)
        = Except.error
            (List.foldl (fun t n => if n ∈ t then t.erase n else t) s pre) := by
  induction pre with
  | nil => intro s suf; rfl
  | cons n rest ih =>
    intro s suf
    simpa [removeInfos] using ih (if n ∈ s then s.erase n else s) suf

/-- C10: the presence handler never propagates an exception out of a
player-info packet — a malformed info raising mid-loop is caught by the
handler's `try`/`except` and logged (second component `true`), while the
names already added to (or removed from) the set before the raise remain
applied; a malformed action raising before any update leaves the set
untouched. -/
theorem player_info_error_isolated :
    (∀ (s pre : List String) (suf : List (Option String)),
      handle_player_info s
          ⟨[some PAction.addPlayer], pre.map some ++ Option.none :: suf⟩
        = (List.foldl pyAdd s pre, true)) ∧
    (∀ (s pre : List String) (suf : List (Option String)),
      handle_player_info s
          ⟨[some PAction.removePlayer], pre.map some ++ Option.none :: suf⟩
        = (List.foldl (fun t n => if n ∈ t then t.erase n else t) s pre, true)) ∧
    (∀ (s : List String) (acts : List (Option PAction))
        (infos : List (Option String)),
      handle_player_info s ⟨Option.none :: acts, infos⟩ = (s, true)) := by
  refine ⟨?_, ?_, ?_⟩
  · intro s pre suf
    simp [handle_player_info, procActions, addInfos_error_partial pre s suf]
  · intro s pre suf
    simp [handle_player_info, procActions, removeInfos_error_partial pre s suf]
  · intro s acts infos
    rfl

end MCAgent

